import Mathlib

/-!
Verification development for the `ssd/build_engine.py` graph-rewriting
pipeline (`add_plugin` and its helper passes).

The computation graph is shallowly embedded: a graph is a list of named
nodes, each with an operator tag, an ordered list of input references
(`producer` or `producer:index`) and an attribute map.  Pure Python
functions become Lean functions; fallible steps (Python `IndexError`,
`RuntimeError`) return `Except`.  Numeric attribute literals never take
part in arithmetic, so decimal literals are represented exactly as a
mantissa/exponent pair instead of floating point.

Operations supplied by the external `graphsurgeon` library
(`collapse_namespaces`, `remove`, `forward_inputs`, `graph_outputs`, ...)
are not part of this repository's sources; they are modelled from the
specification's description of the corresponding components
(GraphModel, DeadCodeEliminator, PassThroughElider, NamespaceCollapser),
as indicated in each doc comment.
-/

/-- Decimal literal `m * 10 ^ (-e)`.  Attribute values such as `0.33` are
stored and compared, never computed with, so this exact representation is
faithful. -/
structure Dec10 where
  m : Int
  e : Nat
deriving DecidableEq, Repr

/-- Typed attribute value of a graph node: integer scalar, decimal scalar,
decimal list, integer list, or tensor shape. -/
inductive AttrVal where
  | i (n : Int)
  | d (x : Dec10)
  | dl (xs : List Dec10)
  | il (xs : List Int)
  | shape (dims : List Nat)
deriving DecidableEq, Repr

/-- Graph node: identity is the name; `input` is the ordered list of input
references, each `producer` or `producer:outputIndex`. -/
structure Node where
  name : String
  op : String
  input : List String
  attrs : List (String × AttrVal)
deriving DecidableEq, Repr

/-- Computation graph: the owned node list (insertion order preserved). -/
structure Graph where
  nodes : List Node
deriving DecidableEq, Repr

/-- Producer name of an input reference: strips a `:index` suffix, so
`image_tensor:0` resolves to node `image_tensor`. -/
def refBase (r : String) : String :=
  ⟨r.data.takeWhile (fun c => c ≠ ':')⟩

/-- All nodes tagged with the given operator kind (graphsurgeon
`find_nodes_by_op`). -/
def find_nodes_by_op (g : Graph) (opk : String) : List Node :=
  g.nodes.filter (fun n => n.op == opk)

/-- All nodes with the given exact name (graphsurgeon
`find_nodes_by_name`). -/
def find_nodes_by_name (g : Graph) (nm : String) : List Node :=
  g.nodes.filter (fun n => n.name == nm)

/-- Does some node of the graph consume (reference as an input) the node
with the given name? -/
def Graph.consumes (g : Graph) (nm : String) : Bool :=
  g.nodes.any (fun n => n.input.any (fun r => refBase r == nm))

/-- Modelled from the spec: the graph's output set.  The validator's
"drop the other outputs and recheck" step (GraphValidator) only makes
sense when outputs are the nodes currently consumed by no other node,
which is graphsurgeon's dynamic `graph_outputs` property. -/
def Graph.graph_outputs (g : Graph) : List Node :=
  g.nodes.filter (fun n => !(g.consumes n.name))

/-- Names of the graph's output nodes. -/
def outNames (g : Graph) : List String :=
  g.graph_outputs.map Node.name

/-- Modelled from the spec: GraphModel `remove` with `cascade=false`
removes the named nodes outright and detaches them from every other
node's input list. -/
def Graph.removeNames (g : Graph) (nms : List String) : Graph :=
  ⟨(g.nodes.filter (fun n => !(nms.contains n.name))).map
    (fun n => { n with input := n.input.filter (fun r => !(nms.contains (refBase r))) })⟩

/-- Update the first node satisfying the predicate, leaving the rest
unchanged (Python mutates `find_nodes_by_...(...)[0]` in place). -/
def updateFirst (l : List Node) (p : Node → Bool) (f : Node → Node) : List Node :=
  match l with
  | [] => []
  | n :: t => if p n then f n :: t else n :: updateFirst t p f

/-- Keep the first occurrence of each element, dropping later duplicates. -/
def dedupKeepFirst (l : List String) : List String :=
  l.foldl (fun acc x => if acc.contains x then acc else acc ++ [x]) []

/-- Modelled from the spec: one sweep of DeadCodeEliminator's cascade:
names of nodes that now have zero consumers and are not protected. -/
def cascadeDead (g : Graph) (keep : List String) : List String :=
  (g.nodes.filter (fun n => !(g.consumes n.name) && !(keep.contains n.name))).map Node.name

/-- Modelled from the spec: fixed-point loop of DeadCodeEliminator,
bounded by the node count (each iteration removes at least one node). -/
def cascadeLoop : Nat → Graph → List String → Graph
  | 0, g, _ => g
  | fuel + 1, g, keep =>
    let dead := cascadeDead g keep
    if dead.isEmpty then g else cascadeLoop fuel (g.removeNames dead) keep

/-- Modelled from the spec: GraphModel `remove` with `cascade=true`
(graphsurgeon `remove_exclusive_dependencies=True`): remove the requested
nodes, then repeatedly remove nodes left with zero consumers that were not
part of the original output set. -/
def removeCascade (g : Graph) (targets : List String) : Graph :=
  let keep := outNames g
  cascadeLoop g.nodes.length (g.removeNames targets) keep

/-- Errors of the embedded pipeline: Python `IndexError` from an unguarded
`[0]`, the PassThroughElider precondition violation on a node without
exactly one input, and `RuntimeError(msg)`. -/
inductive PErr where
  | indexError
  | multiInput
  | runtime (msg : String)
deriving DecidableEq, Repr

/-- Modelled from the spec: PassThroughElider on one node, found by name:
replace every reference to it (`name` or `name:k`) by its single input
reference and remove it; a node without exactly one input is a fatal
precondition violation.  A name no longer present is skipped. -/
def forwardByName (g : Graph) (nm : String) : Except PErr Graph :=
  match g.nodes.find? (fun n => n.name == nm) with
  | none => .ok g
  | some n =>
    match n.input with
    | [r0] =>
      .ok ⟨(g.nodes.filter (fun m => m.name != nm)).map
        (fun m => { m with input := m.input.map (fun r => if refBase r == nm then r0 else r) })⟩
    | _ => .error .multiInput

/-- Modelled from the spec: graphsurgeon `forward_inputs` over a set of
nodes, processed in order by name. -/
def forward_inputs (g : Graph) (nms : List String) : Except PErr Graph :=
  nms.foldlM forwardByName g

/-- Per-model parameter specification (`MODEL_SPECS` entries).  The three
on-disk file paths of the Python registry are host bookkeeping outside the
graph transformation and are not part of the model. -/
structure ModelSpec where
  num_classes : Int
  min_size : Dec10
  max_size : Dec10
  input_order : List Int
deriving DecidableEq, Repr

/-- The static model registry `MODEL_SPECS` (graph-relevant fields). -/
def MODEL_SPECS : List (String × ModelSpec) :=
  [ ("ssd_mobilenet_v1_coco", ⟨91, ⟨2, 1⟩, ⟨95, 2⟩, [0, 2, 1]⟩),
    ("ssd_mobilenet_v1_egohands", ⟨2, ⟨5, 2⟩, ⟨95, 2⟩, [0, 2, 1]⟩),
    ("ssd_mobilenet_v2_coco", ⟨91, ⟨2, 1⟩, ⟨95, 2⟩, [1, 0, 2]⟩),
    ("ssd_mobilenet_v2_egohands", ⟨2, ⟨5, 2⟩, ⟨95, 2⟩, [0, 2, 1]⟩),
    ("ssd_inception_v2_coco", ⟨91, ⟨2, 1⟩, ⟨95, 2⟩, [0, 2, 1]⟩),
    ("ssdlite_mobilenet_v2_coco", ⟨91, ⟨2, 1⟩, ⟨95, 2⟩, [0, 2, 1]⟩) ]

/-- ModelSpec of `ssd_mobilenet_v1_coco`. -/
def spec_v1_coco : ModelSpec := ⟨91, ⟨2, 1⟩, ⟨95, 2⟩, [0, 2, 1]⟩

/-- Fixed input tensor dimensions `INPUT_DIMS = (3, 300, 300)`. -/
def INPUT_DIMS : List Nat := [3, 300, 300]

/-- Attribute lookup on a node. -/
def getAttr (n : Node) (k : String) : Option AttrVal :=
  n.attrs.lookup k

/-- The `Input` placeholder plugin node built by `add_plugin`. -/
def InputNode : Node :=
  ⟨"Input", "Placeholder", [], [("shape", .shape (1 :: INPUT_DIMS))]⟩

/-- The five aspect-ratio literals `[1.0, 2.0, 0.5, 3.0, 0.33]` of the
`PriorBox` node. -/
def aspectRatiosList : List Dec10 := [⟨1, 0⟩, ⟨2, 0⟩, ⟨5, 1⟩, ⟨3, 0⟩, ⟨33, 2⟩]

/-- The `PriorBox` replacement node (`MultipleGridAnchorGenerator`,
op `GridAnchor_TRT`) built by `add_plugin` from a ModelSpec. -/
def PriorBoxNode (spec : ModelSpec) : Node :=
  ⟨"MultipleGridAnchorGenerator", "GridAnchor_TRT", [],
    [ ("minSize", .d spec.min_size),
      ("maxSize", .d spec.max_size),
      ("aspectRatios", .dl aspectRatiosList),
      ("variance", .dl [⟨1, 1⟩, ⟨1, 1⟩, ⟨2, 1⟩, ⟨2, 1⟩]),
      ("featureMapShapes", .il [19, 10, 5, 3, 2, 1]),
      ("numLayers", .i 6) ]⟩

/-- The `NMS` replacement node (op `NMS_TRT`) built by `add_plugin` from a
ModelSpec. -/
def NMSNode (spec : ModelSpec) : Node :=
  ⟨"NMS", "NMS_TRT", [],
    [ ("shareLocation", .i 1),
      ("varianceEncodedInTarget", .i 0),
      ("backgroundLabelId", .i 0),
      ("confidenceThreshold", .d ⟨3, 1⟩),
      ("nmsThreshold", .d ⟨6, 1⟩),
      ("topK", .i 100),
      ("keepTopK", .i 100),
      ("numClasses", .i spec.num_classes),
      ("inputOrder", .il spec.input_order),
      ("confSigmoid", .i 1),
      ("isNormalized", .i 1) ]⟩

/-- The plain `concat_priorbox` concatenation node. -/
def concatPriorboxNode : Node :=
  ⟨"concat_priorbox", "ConcatV2", [], [("axis", .i 2)]⟩

/-- The `concat_box_loc` flatten-concat plugin node; `trt7` selects the
attribute schema of the active TensorRT version (source tests
`trt.__version__[0] >= '7'`). -/
def concatBoxLocNode (trt7 : Bool) : Node :=
  if trt7 then
    ⟨"concat_box_loc", "FlattenConcat_TRT", [], [("axis", .i 1), ("ignoreBatch", .i 0)]⟩
  else
    ⟨"concat_box_loc", "FlattenConcat_TRT", [], []⟩

/-- The `concat_box_conf` flatten-concat plugin node (see
`concatBoxLocNode`). -/
def concatBoxConfNode (trt7 : Bool) : Node :=
  if trt7 then
    ⟨"concat_box_conf", "FlattenConcat_TRT", [], [("axis", .i 1), ("ignoreBatch", .i 0)]⟩
  else
    ⟨"concat_box_conf", "FlattenConcat_TRT", [], []⟩

/-- The `namespace_plugin_map` of `add_plugin`, in source order. -/
def pluginMap (trt7 : Bool) (spec : ModelSpec) : List (String × Node) :=
  [ ("MultipleGridAnchorGenerator", PriorBoxNode spec),
    ("Postprocessor", NMSNode spec),
    ("Preprocessor", InputNode),
    ("ToFloat", InputNode),
    ("Cast", InputNode),
    ("image_tensor", InputNode),
    ("MultipleGridAnchorGenerator/Concatenate", concatPriorboxNode),
    ("Concatenate", concatPriorboxNode),
    ("concat", concatBoxLocNode trt7),
    ("concat_1", concatBoxConfNode trt7) ]

/-- Does `nm` lie strictly under the namespace `k` (starts with `k ++ "/"`)? -/
def underKey (k : String) (nm : String) : Bool :=
  (k.data ++ ['/']).isPrefixOf nm.data

/-- Modelled from the spec: namespace-key selection of NamespaceCollapser.
An exact-name key wins over prefix keys; among prefix keys the most
specific (longest) one wins, so `MultipleGridAnchorGenerator/Concatenate`
beats `MultipleGridAnchorGenerator`. -/
def chooseKey (keys : List String) (nm : String) : Option String :=
  match keys.find? (fun k => k == nm) with
  | some k => some k
  | none =>
    (keys.filter (fun k => underKey k nm)).foldl
      (fun acc k =>
        match acc with
        | none => some k
        | some b => if b.length < k.length then some k else acc)
      none

/-- Modelled from the spec: NamespaceCollapser (§4.6).  Every node whose
name equals a key or lies under it is removed; one replacement node per
distinct replacement is appended.  References from surviving outside
nodes to removed nodes are rewritten to the replacement's name.  Each
replacement inherits, deduplicated in first-seen order, the
boundary-crossing input references of its namespaces: references to plain
outside producers are attached verbatim, references into a different
namespace with a different replacement are rewritten to that
replacement's name, and references into a namespace collapsing to the
same replacement are kept verbatim — this is the documented residue (a
collapsed `Input` still listing `image_tensor:0`) that the pipeline
strips afterwards.  Internal (same-key) edges are dropped. -/
def collapse_namespaces (pmap : List (String × Node)) (g : Graph) : Graph :=
  let keys := pmap.map Prod.fst
  let keyOfNode : Node → Option String := fun n => chooseKey keys n.name
  let repOf : String → Node := fun k => ((pmap.lookup k).getD ⟨"", "", [], []⟩)
  let keyOfRef : String → Option String := fun r =>
    match g.nodes.find? (fun n => n.name == refBase r) with
    | some n => keyOfNode n
    | none => none
  let matchedKeys := keys.filter (fun k => g.nodes.any (fun n => keyOfNode n == some k))
  let outside :=
    (g.nodes.filter (fun n => (keyOfNode n).isNone)).map
      (fun m =>
        { m with
          input := m.input.map (fun r =>
            match keyOfRef r with
            | some k => (repOf k).name
            | none => r) })
  let extForKey : String → List String := fun k =>
    (g.nodes.filter (fun n => keyOfNode n == some k)).foldl
      (fun acc n =>
        acc ++ n.input.filterMap (fun r =>
          match keyOfRef r with
          | some k2 =>
            if k2 == k then none
            else if (repOf k2).name == (repOf k).name then some r
            else some (repOf k2).name
          | none => some r))
      []
  let matchedReps := dedupKeepFirst (matchedKeys.map (fun k => (repOf k).name))
  let reps := matchedReps.filterMap (fun rn =>
    match pmap.find? (fun p => p.2.name == rn) with
    | none => none
    | some (_, rep) =>
      let ext := dedupKeepFirst
        ((matchedKeys.filter (fun k => (repOf k).name == rn)).foldl
          (fun acc k => acc ++ extForKey k) [])
      some { rep with input := rep.input ++ ext })
  ⟨outside ++ reps⟩

/-- Retag a node from operator kind `t` to `u` (graphsurgeon
`update_node(node, op=u)` applied to the nodes found by op). -/
def opSwap (t u : String) (n : Node) : Node :=
  if n.op == t then { n with op := u } else n

/-- Rename every node tagged `AddV2` to `Add`, attributes untouched
(source `replace_addv2`). -/
def replace_addv2 (g : Graph) : Graph :=
  ⟨g.nodes.map (opSwap "AddV2" "Add")⟩

/-- Rename every node tagged `FusedBatchNormV3` to `FusedBatchNorm`,
attributes untouched (source `replace_fusedbnv3`). -/
def replace_fusedbnv3 (g : Graph) : Graph :=
  ⟨g.nodes.map (opSwap "FusedBatchNormV3" "FusedBatchNorm")⟩

/-- The synthetic constant node `AnchorInput` holding the 2-element unit
vector `[1.0, 1.0]` (source `add_anchor_input`). -/
def anchorConst : Node :=
  ⟨"AnchorInput", "Const", [], [("value", .dl [⟨1, 0⟩, ⟨1, 0⟩])]⟩

/-- Append the `AnchorInput` constant and wire it as first input of the
first `GridAnchor_TRT` node (source `add_anchor_input`). -/
def add_anchor_input (g : Graph) : Graph :=
  ⟨updateFirst (g.nodes ++ [anchorConst]) (fun n => n.op == "GridAnchor_TRT")
    (fun n => { n with input := "AnchorInput" :: n.input })⟩

/-- Pass labels of the `add_plugin` pipeline, one per source step. -/
inductive PassId where
  | removeAsserts
  | elideIdentities
  | removeGatherNode
  | collapseNS
  | rwAddV2
  | rwFusedBNV3
  | stripInputEdge
  | stripNMSEdge
  | forwardSqueeze
  | dropAnchors
  | ensureAnchorInput
  | validateOutputs
deriving DecidableEq, Repr

/-- Remove all `Assert` nodes together with their exclusive dependencies
(source lines 153-154). -/
def removeAssertsPass (g : Graph) : Except PErr Graph :=
  .ok (removeCascade g ((find_nodes_by_op g "Assert").map Node.name))

/-- Elide all `Identity` nodes, forwarding their single input (source
lines 156-157). -/
def elideIdentitiesPass (g : Graph) : Except PErr Graph :=
  forward_inputs g ((find_nodes_by_op g "Identity").map Node.name)

/-- Remove the `Preprocessor/map/TensorArrayStack_1/TensorArrayGatherV3`
node without cascading (source line 239). -/
def removeGatherPass (g : Graph) : Except PErr Graph :=
  .ok (g.removeNames
    ((find_nodes_by_name g "Preprocessor/map/TensorArrayStack_1/TensorArrayGatherV3").map Node.name))

/-- Remove the reference `ref` from the input list of the first node named
`nm`, if present; indexing `find_nodes_by_name(...)[0]` on an absent name
is an unguarded `IndexError` (source lines 245-248).  Python
`list.remove` deletes only the first occurrence. -/
def stripRef (g : Graph) (nm ref : String) : Except PErr Graph :=
  match g.nodes.find? (fun n => n.name == nm) with
  | none => .error .indexError
  | some n =>
    if ref ∈ n.input then
      .ok ⟨updateFirst g.nodes (fun m => m.name == nm)
        (fun m => { m with input := m.input.erase ref })⟩
    else .ok g

/-- Source line 245-246: drop the residual raw `image_tensor:0` reference
from the `Input` placeholder. -/
def stripInputEdgePass (g : Graph) : Except PErr Graph :=
  stripRef g "Input" "image_tensor:0"

/-- Source line 247-248: drop the residual direct `Input` reference from
the `NMS` node. -/
def stripNMSEdgePass (g : Graph) : Except PErr Graph :=
  stripRef g "NMS" "Input"

/-- Source line 250: elide any node named `Squeeze` feeding the first
graph output; `graph_outputs[0]` on an empty output list is an unguarded
`IndexError`. -/
def forwardSqueezePass (g : Graph) : Except PErr Graph :=
  match g.graph_outputs with
  | [] => .error .indexError
  | out0 :: _ =>
    forward_inputs g
      ((g.nodes.filter (fun n =>
          n.name == "Squeeze" && out0.input.any (fun r => refBase r == n.name))).map Node.name)

/-- Source lines 251-252: drop the stray `anchors` output node if present. -/
def dropAnchorsPass (g : Graph) : Except PErr Graph :=
  .ok (if "anchors" ∈ outNames g then g.removeNames ["anchors"] else g)

/-- Source lines 253-254: if the first `GridAnchor_TRT` node has no input,
synthesize the `AnchorInput` constant; indexing `[0]` on a graph with no
such node is an unguarded `IndexError`. -/
def ensureAnchorInputPass (g : Graph) : Except PErr Graph :=
  match find_nodes_by_op g "GridAnchor_TRT" with
  | [] => .error .indexError
  | n :: _ => if n.input.length < 1 then .ok (add_anchor_input g) else .ok g

/-- Source lines 255-259: final output validation.  If `NMS` is not among
the outputs, drop the current outputs and recheck; if it is still absent,
raise `RuntimeError('bad graph_outputs')`. -/
def validateOutputsPass (g : Graph) : Except PErr Graph :=
  if "NMS" ∈ outNames g then .ok g
  else if "NMS" ∈ outNames (g.removeNames (outNames g)) then .ok (g.removeNames (outNames g))
  else .error (.runtime "bad graph_outputs")

/-- Run a list of labelled passes in order, stopping at the first error. -/
def runPasses : List (PassId × (Graph → Except PErr Graph)) → Graph → Except PErr Graph
  | [], g => .ok g
  | (_, f) :: rest, g =>
    match f g with
    | .error e => .error e
    | .ok g2 => runPasses rest g2

/-- The pipeline steps up to and including namespace collapse, in source
order (lines 153-241). -/
def frontToCollapse (trt7 : Bool) (spec : ModelSpec) :
    List (PassId × (Graph → Except PErr Graph)) :=
  [ (.removeAsserts, removeAssertsPass),
    (.elideIdentities, elideIdentitiesPass),
    (.removeGatherNode, removeGatherPass),
    (.collapseNS, fun g => .ok (collapse_namespaces (pluginMap trt7 spec) g)) ]

/-- The pipeline steps after collapse and before the final validation, in
source order (lines 242-254). -/
def middlePasses : List (PassId × (Graph → Except PErr Graph)) :=
  [ (.rwAddV2, fun g => .ok (replace_addv2 g)),
    (.rwFusedBNV3, fun g => .ok (replace_fusedbnv3 g)),
    (.stripInputEdge, stripInputEdgePass),
    (.stripNMSEdge, stripNMSEdgePass),
    (.forwardSqueeze, forwardSqueezePass),
    (.dropAnchors, dropAnchorsPass),
    (.ensureAnchorInput, ensureAnchorInputPass) ]

/-- All passes of `add_plugin`, in source order. -/
def passList (trt7 : Bool) (spec : ModelSpec) :
    List (PassId × (Graph → Except PErr Graph)) :=
  frontToCollapse trt7 spec ++ (middlePasses ++ [(.validateOutputs, validateOutputsPass)])

/-- The steps of the pipeline after namespace collapse. -/
def tailAfterCollapse : List (PassId × (Graph → Except PErr Graph)) :=
  middlePasses ++ [(.validateOutputs, validateOutputsPass)]

/-- All passes except the final validation. -/
def frontToValidate (trt7 : Bool) (spec : ModelSpec) :
    List (PassId × (Graph → Except PErr Graph)) :=
  frontToCollapse trt7 spec ++ middlePasses

/-- The whole `add_plugin` pipeline (source lines 140-261). -/
def add_plugin (trt7 : Bool) (spec : ModelSpec) (g : Graph) : Except PErr Graph :=
  runPasses (passList trt7 spec) g

/-- The pass sequence of `add_plugin` as labels. -/
def addPluginPassOrder : List PassId :=
  [ .removeAsserts, .elideIdentities, .removeGatherNode, .collapseNS,
    .rwAddV2, .rwFusedBNV3, .stripInputEdge, .stripNMSEdge,
    .forwardSqueeze, .dropAnchors, .ensureAnchorInput, .validateOutputs ]

/-- Files written by `main` (source lines 282-300), abstracted to their
registry labels: the UFF interchange file is written by the exporter and
the serialized engine afterwards, both strictly after `add_plugin`; an
exception from `add_plugin` propagates and nothing is written. -/
def main_files (trt7 : Bool) (spec : ModelSpec) (g : Graph) : Except PErr (List String) :=
  match add_plugin trt7 spec g with
  | .error e => .error e
  | .ok _ => .ok ["tmp_uff", "output_bin"]

/-! ### Invariant predicates tracked across passes -/

/-- Some node of the graph bears the given name. -/
def hasName (g : Graph) (x : String) : Prop :=
  x ∈ g.nodes.map Node.name

/-- No node of the graph bears the given name. -/
def noName (g : Graph) (x : String) : Prop :=
  ∀ n ∈ g.nodes, n.name ≠ x

/-- No input reference of any node resolves to the given name. -/
def noRefTo (g : Graph) (x : String) : Prop :=
  ∀ n ∈ g.nodes, ∀ r ∈ n.input, refBase r ≠ x

/-- Every `GridAnchor_TRT` node has an empty input list. -/
def gaEmptyInputs (g : Graph) : Prop :=
  ∀ n ∈ g.nodes, n.op = "GridAnchor_TRT" → n.input = []

/-- At most one node is tagged `GridAnchor_TRT`. -/
def gaAtMostOne (g : Graph) : Prop :=
  (g.nodes.filter (fun n => n.op == "GridAnchor_TRT")).length ≤ 1

/-! ### Concrete graphs used as witnesses and counterexamples -/

/-- Well-formed example: collapses to `Input`, `Cst`, `PriorBox`, `NMS`
with single output `NMS`. -/
def gGood : Graph :=
  ⟨[ ⟨"Input", "Placeholder", [], []⟩,
     ⟨"Cst", "Const", [], []⟩,
     ⟨"MultipleGridAnchorGenerator/a", "Op", ["Cst"], []⟩,
     ⟨"Postprocessor/p", "Op", ["Input:1", "Cst", "MultipleGridAnchorGenerator/a"], []⟩ ]⟩

/-- Result of the pipeline on `gGood`. -/
def goodRes : Graph := (add_plugin false spec_v1_coco gGood).toOption.getD ⟨[]⟩

/-- Graph with no `GridAnchor_TRT` node after collapse. -/
def gNoGA : Graph :=
  ⟨[ ⟨"Input", "Placeholder", [], []⟩,
     ⟨"Postprocessor/p", "Op", ["Input:1"], []⟩ ]⟩

/-- Like `gGood` but with a second sink `S` consuming the collapsed
PriorBox, so that the final output set is `{S, NMS}`. -/
def gC2 : Graph :=
  ⟨[ ⟨"Input", "Placeholder", [], []⟩,
     ⟨"Cst", "Const", [], []⟩,
     ⟨"MultipleGridAnchorGenerator/a", "Op", ["Cst"], []⟩,
     ⟨"Postprocessor/p", "Op", ["Input:1", "Cst", "MultipleGridAnchorGenerator/a"], []⟩,
     ⟨"S", "Op", ["MultipleGridAnchorGenerator/a"], []⟩ ]⟩

/-- Result of the pipeline on `gC2`. -/
def c2res : Graph := (add_plugin false spec_v1_coco gC2).toOption.getD ⟨[]⟩

/-- Graph on which `NMS` is consumed by `A`, `A` by `B`: the output set
is `{B}`, and after removing it `{A}` — `NMS` never appears. -/
def gC6 : Graph :=
  ⟨[ ⟨"Input", "Placeholder", [], []⟩,
     ⟨"Postprocessor/p", "Op", ["Input:1"], []⟩,
     ⟨"MultipleGridAnchorGenerator/a", "Op", ["Cst"], []⟩,
     ⟨"Cst", "Const", [], []⟩,
     ⟨"A", "Op", ["Postprocessor/p", "MultipleGridAnchorGenerator/a"], []⟩,
     ⟨"B", "Op", ["A"], []⟩ ]⟩

/-- State of `gC6` just before the final validation. -/
def c6mid : Graph := (runPasses (frontToValidate false spec_v1_coco) gC6).toOption.getD ⟨[]⟩

/-- Post-collapse graph in which `Input` lists the raw reference twice
and `NMS` lists `Input` twice. -/
def gDup : Graph :=
  ⟨[ ⟨"Input", "Placeholder", ["image_tensor:0", "image_tensor:0"], []⟩,
     ⟨"NMS", "NMS_TRT", ["Input", "Input"], []⟩ ]⟩

/-- Result of the first strip pass on `gDup`. -/
def dup1 : Graph := (stripInputEdgePass gDup).toOption.getD ⟨[]⟩

/-- Result of the second strip pass on `gDup`. -/
def dup2 : Graph := (stripNMSEdgePass dup1).toOption.getD ⟨[]⟩

/-- Clean post-collapse graph: single occurrences of both residues. -/
def gW9 : Graph :=
  ⟨[ ⟨"Input", "Placeholder", ["image_tensor:0"], []⟩,
     ⟨"NMS", "NMS_TRT", ["Input", "w"], []⟩,
     ⟨"w", "Const", [], []⟩ ]⟩

/-- Result of the first strip pass on `gW9`. -/
def w9a : Graph := (stripInputEdgePass gW9).toOption.getD ⟨[]⟩

/-- Result of the second strip pass on `gW9`. -/
def w9b : Graph := (stripNMSEdgePass w9a).toOption.getD ⟨[]⟩

/-- Example graph with no `AddV2` node. -/
def gW8 : Graph := ⟨[⟨"a", "Mul", ["b"], []⟩, ⟨"b", "Const", [], []⟩]⟩

/-- Graph whose generator has zero inputs after collapse and is ORPHANED
(no consumer), so the validator's corrective retry removes it. -/
def gC3cex : Graph :=
  ⟨[ ⟨"Input", "Placeholder", [], []⟩,
     ⟨"w", "Const", [], []⟩,
     ⟨"Postprocessor/p", "Op", ["w"], []⟩,
     ⟨"MultipleGridAnchorGenerator/a", "Op", [], []⟩,
     ⟨"S", "Op", ["Input", "Postprocessor/p"], []⟩ ]⟩

/-- State of `gC3cex` right after namespace collapse. -/
def c3cexMid : Graph :=
  (runPasses (frontToCollapse false spec_v1_coco) gC3cex).toOption.getD ⟨[]⟩

/-- Final pipeline result on `gC3cex`. -/
def c3cexRes : Graph := (add_plugin false spec_v1_coco gC3cex).toOption.getD ⟨[]⟩

/-- Graph whose generator has zero inputs after collapse and IS consumed
by the NMS node, so it survives to the final graph. -/
def gW3 : Graph :=
  ⟨[ ⟨"Input", "Placeholder", [], []⟩,
     ⟨"Postprocessor/p", "Op", ["Input:1", "MultipleGridAnchorGenerator/a"], []⟩,
     ⟨"MultipleGridAnchorGenerator/a", "Op", [], []⟩ ]⟩

/-- State of `gW3` right after namespace collapse. -/
def w3mid : Graph :=
  (runPasses (frontToCollapse false spec_v1_coco) gW3).toOption.getD ⟨[]⟩

/-- Final pipeline result on `gW3`. -/
def w3res : Graph := (add_plugin false spec_v1_coco gW3).toOption.getD ⟨[]⟩

/-- Graph collapsing to output set `{anchors, NMS}`, in which `NMS`
lists `Input` directly and is `Input`'s only consumer. -/
def gC7 : Graph :=
  ⟨[ ⟨"Input", "Placeholder", [], []⟩,
     ⟨"Cst", "Const", [], []⟩,
     ⟨"MultipleGridAnchorGenerator/a", "Op", ["Cst"], []⟩,
     ⟨"Postprocessor/p", "Op", ["Input", "MultipleGridAnchorGenerator/a"], []⟩,
     ⟨"anchors", "Op", ["MultipleGridAnchorGenerator/a"], []⟩ ]⟩

/-- State of `gC7` right after namespace collapse. -/
def c7mid : Graph :=
  (runPasses (frontToCollapse false spec_v1_coco) gC7).toOption.getD ⟨[]⟩

/-- Final pipeline result on `gC7`. -/
def c7res : Graph := (add_plugin false spec_v1_coco gC7).toOption.getD ⟨[]⟩

/-! ### Basic lemmas about the graph model -/

/-- A name is consumed exactly when some node references it. -/
theorem consumes_eq_true_iff (g : Graph) (x : String) :
    g.consumes x = true ↔ ∃ n ∈ g.nodes, ∃ r ∈ n.input, refBase r = x := by
  simp [Graph.consumes, List.any_eq_true]

/-- A name is unconsumed exactly when no node references it. -/
theorem consumes_eq_false_iff (g : Graph) (x : String) :
    g.consumes x = false ↔ ∀ n ∈ g.nodes, ∀ r ∈ n.input, refBase r ≠ x := by
  rw [← Bool.not_eq_true, consumes_eq_true_iff]
  push_neg
  rfl

/-- Output-name membership: a node of that name exists and nobody
consumes the name. -/
theorem mem_outNames (g : Graph) (x : String) :
    x ∈ outNames g ↔ (∃ n ∈ g.nodes, n.name = x) ∧ g.consumes x = false := by
  simp only [outNames, Graph.graph_outputs, List.mem_map, List.mem_filter,
    Bool.not_eq_true']
  constructor
  · rintro ⟨n, ⟨hn, hc⟩, rfl⟩
    exact ⟨⟨n, hn, rfl⟩, hc⟩
  · rintro ⟨⟨n, hn, rfl⟩, hc⟩
    exact ⟨n, ⟨hn, hc⟩, rfl⟩

/-- Every node of a `removeNames` result comes from a node of the
original graph with the same name and op and a sub-list of its inputs. -/
theorem removeNames_mem {g : Graph} {nms : List String} {m : Node}
    (h : m ∈ (g.removeNames nms).nodes) :
    ∃ n ∈ g.nodes, m.name = n.name ∧ m.op = n.op ∧ m.attrs = n.attrs ∧
      ∀ r ∈ m.input, r ∈ n.input := by
  simp only [Graph.removeNames, List.mem_map, List.mem_filter] at h
  obtain ⟨n, ⟨hn, -⟩, rfl⟩ := h
  exact ⟨n, hn, rfl, rfl, rfl, fun r hr => List.mem_of_mem_filter hr⟩

/-- `removeNames` removes every node with a listed name. -/
theorem removeNames_noName {g : Graph} {nms : List String} {m : Node}
    (h : m ∈ (g.removeNames nms).nodes) : ¬ m.name ∈ nms := by
  simp only [Graph.removeNames, List.mem_map, List.mem_filter] at h
  obtain ⟨n, ⟨-, hn⟩, rfl⟩ := h
  simpa using hn

/-! ### Lemmas about `updateFirst` -/

/-- Origin of a node of an `updateFirst` result. -/
theorem updateFirst_mem {l : List Node} {p : Node → Bool} {f : Node → Node} {m : Node}
    (h : m ∈ updateFirst l p f) : m ∈ l ∨ ∃ n ∈ l, m = f n := by
  induction l with
  | nil => cases h
  | cons n t ih =>
    simp only [updateFirst] at h
    split at h
    · rcases List.mem_cons.1 h with h1 | h1
      · exact .inr ⟨n, List.mem_cons_self n t, h1⟩
      · exact .inl (List.mem_cons_of_mem _ h1)
    · rcases List.mem_cons.1 h with h1 | h1
      · exact .inl (h1 ▸ List.mem_cons_self n t)
      · rcases ih h1 with h2 | ⟨n2, hn2, h2⟩
        · exact .inl (List.mem_cons_of_mem _ h2)
        · exact .inr ⟨n2, List.mem_cons_of_mem _ hn2, h2⟩

/-- `updateFirst` keeps any member on which the predicate fails. -/
theorem updateFirst_mem_of_not {l : List Node} {p : Node → Bool} {f : Node → Node} {m : Node}
    (h : m ∈ l) (hp : p m = false) : m ∈ updateFirst l p f := by
  induction l with
  | nil => cases h
  | cons n t ih =>
    simp only [updateFirst]
    split
    · rcases List.mem_cons.1 h with h1 | h1
      · subst h1; simp_all
      · exact List.mem_cons_of_mem _ h1
    · rcases List.mem_cons.1 h with h1 | h1
      · exact h1 ▸ List.mem_cons_self n _
      · exact List.mem_cons_of_mem _ (ih h1)

/-- When `f` fixes the predicate, finding the predicate after
`updateFirst` returns the image of the original find. -/
theorem updateFirst_find?_self {l : List Node} {p : Node → Bool} {f : Node → Node}
    (hp : ∀ n, p (f n) = p n) :
    (updateFirst l p f).find? p = (l.find? p).map f := by
  induction l with
  | nil => rfl
  | cons n t ih =>
    simp only [updateFirst]
    split
    · next h => simp [List.find?, hp, h]
    · next h => simp [List.find?, Bool.not_eq_true] at h ⊢; simp [h, ih]

/-- `updateFirst` by one predicate does not disturb the first node found
by a disjoint predicate. -/
theorem updateFirst_find?_ne {l : List Node} {p q : Node → Bool} {f : Node → Node}
    (hpq : ∀ n, p n = true → q n = false) (hq : ∀ n, q (f n) = q n) :
    (updateFirst l p f).find? q = l.find? q := by
  induction l with
  | nil => rfl
  | cons n t ih =>
    simp only [updateFirst]
    split
    · next h => simp [List.find?, hq, hpq n h]
    · next h => simp only [List.find?]; cases hqn : q n <;> simp [hqn, ih]

/-! ### Lemmas about `runPasses` -/

/-- Peel one successful pass off a pipeline run. -/
theorem runPasses_cons_ok {pid : PassId} {f : Graph → Except PErr Graph}
    {rest : List (PassId × (Graph → Except PErr Graph))} {g gf : Graph}
    (h : runPasses ((pid, f) :: rest) g = .ok gf) :
    ∃ g2, f g = .ok g2 ∧ runPasses rest g2 = .ok gf := by
  simp only [runPasses] at h
  cases hstep : f g with
  | error e => rw [hstep] at h; cases h
  | ok g2 => rw [hstep] at h; exact ⟨g2, rfl, h⟩

/-- Running a concatenation of pass lists runs the two halves in turn. -/
theorem runPasses_append (l1 l2 : List (PassId × (Graph → Except PErr Graph))) (g : Graph) :
    runPasses (l1 ++ l2) g =
      match runPasses l1 g with
      | .error e => .error e
      | .ok g1 => runPasses l2 g1 := by
  induction l1 generalizing g with
  | nil => simp [runPasses]
  | cons p rest ih =>
    obtain ⟨pid, f⟩ := p
    simp only [List.cons_append, runPasses]
    cases hstep : f g <;> simp [ih]

/-- The pass list splits at the final validation. -/
theorem passList_validate_split (trt7 : Bool) (spec : ModelSpec) :
    passList trt7 spec = frontToValidate trt7 spec ++ [(.validateOutputs, validateOutputsPass)] := by
  rw [passList, frontToValidate, List.append_assoc]

/-- A successful final validation leaves `NMS` among the outputs. -/
theorem validate_ok_mem {g g2 : Graph} (h : validateOutputsPass g = .ok g2) :
    "NMS" ∈ outNames g2 := by
  unfold validateOutputsPass at h
  split at h
  · next hin => cases h; exact hin
  · split at h
    · next hin => cases h; exact hin
    · cases h

/-! ### Lemmas about the invariant predicates -/

theorem noName_not_mem_outNames {g : Graph} {x : String} (hx : noName g x) :
    x ∉ outNames g := by
  intro hmem
  obtain ⟨⟨n, hn, hname⟩, -⟩ := (mem_outNames g x).1 hmem
  exact hx n hn hname

theorem hasName_exists {g : Graph} {x : String} (h : hasName g x) :
    ∃ n ∈ g.nodes, n.name = x := by
  simpa [hasName, List.mem_map] using h

theorem mem_outNames_of_inv {g : Graph} {x : String}
    (h1 : hasName g x) (h2 : noRefTo g x) : x ∈ outNames g :=
  (mem_outNames g x).2 ⟨hasName_exists h1, (consumes_eq_false_iff g x).2 h2⟩

/-! ### Preservation lemmas for the op-rewriting passes -/

theorem opSwap_name (t u : String) (n : Node) : (opSwap t u n).name = n.name := by
  unfold opSwap; split <;> rfl

theorem opSwap_input (t u : String) (n : Node) : (opSwap t u n).input = n.input := by
  unfold opSwap; split <;> rfl

theorem opSwap_attrs (t u : String) (n : Node) : (opSwap t u n).attrs = n.attrs := by
  unfold opSwap; split <;> rfl

theorem opSwap_ga (t u : String) (n : Node) (ht : t ≠ "GridAnchor_TRT")
    (hu : u ≠ "GridAnchor_TRT") :
    ((opSwap t u n).op == "GridAnchor_TRT") = (n.op == "GridAnchor_TRT") := by
  unfold opSwap
  split
  · next h => simp_all
  · rfl

theorem hasName_map {g : Graph} {f : Node → Node} {x : String}
    (hf : ∀ n, (f n).name = n.name) (h : hasName g x) : hasName ⟨g.nodes.map f⟩ x := by
  simp only [hasName, List.map_map] at *
  have : (Node.name ∘ f) = Node.name := funext hf
  rw [this]
  exact h

theorem noRefTo_map {g : Graph} {f : Node → Node} {x : String}
    (hf : ∀ n, (f n).input = n.input) (h : noRefTo g x) : noRefTo ⟨g.nodes.map f⟩ x := by
  intro m hm r hr
  obtain ⟨n, hn, rfl⟩ := List.mem_map.1 hm
  exact h n hn r (by rwa [hf n] at hr)

theorem gaEmpty_map_opSwap {g : Graph} {t u : String}
    (ht : t ≠ "GridAnchor_TRT") (hu : u ≠ "GridAnchor_TRT")
    (h : gaEmptyInputs g) : gaEmptyInputs ⟨g.nodes.map (opSwap t u)⟩ := by
  intro m hm hop
  obtain ⟨n, hn, rfl⟩ := List.mem_map.1 hm
  rw [opSwap_input]
  apply h n hn
  have := opSwap_ga t u n ht hu
  have hb : ((opSwap t u n).op == "GridAnchor_TRT") = true := by simp [hop]
  rw [this] at hb
  simpa using hb

theorem gaCount_map_opSwap {g : Graph} {t u : String}
    (ht : t ≠ "GridAnchor_TRT") (hu : u ≠ "GridAnchor_TRT")
    (h : gaAtMostOne g) : gaAtMostOne ⟨g.nodes.map (opSwap t u)⟩ := by
  unfold gaAtMostOne at *
  rw [List.filter_map]
  have heq : List.filter ((fun n => n.op == "GridAnchor_TRT") ∘ opSwap t u) g.nodes
      = List.filter (fun n => n.op == "GridAnchor_TRT") g.nodes :=
    List.filter_congr (fun n _ => by simpa [Function.comp] using opSwap_ga t u n ht hu)
  rw [heq]
  simpa using h

/-! ### Preservation lemmas for the residual-edge strip passes -/

theorem updateFirst_map_name {l : List Node} {p : Node → Bool} {f : Node → Node}
    (hf : ∀ n, (f n).name = n.name) :
    (updateFirst l p f).map Node.name = l.map Node.name := by
  induction l with
  | nil => rfl
  | cons n t ih =>
    simp only [updateFirst]
    split <;> simp [hf, ih]

theorem updateFirst_filter_length {l : List Node} {p q : Node → Bool} {f : Node → Node}
    (hq : ∀ n, q (f n) = q n) :
    ((updateFirst l p f).filter q).length = (l.filter q).length := by
  induction l with
  | nil => rfl
  | cons n t ih =>
    simp only [updateFirst]
    split
    · rw [List.filter_cons, List.filter_cons, hq n]
      cases hqn : q n <;> simp [hqn]
    · rw [List.filter_cons, List.filter_cons]
      cases hqn : q n <;> simp [hqn, ih]

theorem stripRef_ok_cases {g : Graph} {nm ref : String} {g2 : Graph}
    (h : stripRef g nm ref = .ok g2) :
    g2 = g ∨ g2 = ⟨updateFirst g.nodes (fun m => m.name == nm)
      (fun m => { m with input := m.input.erase ref })⟩ := by
  unfold stripRef at h
  cases hf : g.nodes.find? (fun n => n.name == nm) with
  | none => rw [hf] at h; cases h
  | some n =>
    simp only [hf] at h
    by_cases hmem : ref ∈ n.input
    · rw [if_pos hmem] at h; cases h; exact .inr rfl
    · rw [if_neg hmem] at h; cases h; exact .inl rfl

theorem stripRef_preserves {g g2 : Graph} {nm ref : String}
    (h : stripRef g nm ref = .ok g2) :
    (gaEmptyInputs g → gaEmptyInputs g2) ∧ (gaAtMostOne g → gaAtMostOne g2) ∧
    (∀ x, hasName g x → hasName g2 x) ∧ (∀ x, noRefTo g x → noRefTo g2 x) := by
  rcases stripRef_ok_cases h with rfl | rfl
  · exact ⟨id, id, fun _ => id, fun _ => id⟩
  · refine ⟨?_, ?_, ?_, ?_⟩
    · intro he m hm hop
      rcases updateFirst_mem hm with h1 | ⟨n, hn, rfl⟩
      · exact he m h1 hop
      · have hni : n.input = [] := he n hn hop
        simp [hni]
    · intro hc
      unfold gaAtMostOne at *
      rw [@updateFirst_filter_length g.nodes (fun m => m.name == nm)
        (fun n => n.op == "GridAnchor_TRT")
        (fun m => { m with input := m.input.erase ref }) (fun n => rfl)]
      exact hc
    · intro x hx
      unfold hasName at *
      rwa [@updateFirst_map_name g.nodes (fun m => m.name == nm)
        (fun m => { m with input := m.input.erase ref }) (fun n => rfl)]
    · intro x hx m hm r hr
      rcases updateFirst_mem hm with h1 | ⟨n, hn, rfl⟩
      · exact hx m h1 r hr
      · exact hx n hn r (List.mem_of_mem_erase hr)

/-! ### Preservation lemmas for pass-through elision -/

theorem forwardByName_ok_cases {g : Graph} {nm : String} {g2 : Graph}
    (h : forwardByName g nm = .ok g2) :
    g2 = g ∨ ∃ n, n ∈ g.nodes ∧ n.name = nm ∧ ∃ r0, n.input = [r0] ∧
      g2 = ⟨(g.nodes.filter (fun m => m.name != nm)).map
        (fun m => { m with input := m.input.map (fun r => if refBase r == nm then r0 else r) })⟩ := by
  unfold forwardByName at h
  cases hf : g.nodes.find? (fun n => n.name == nm) with
  | none => simp only [hf] at h; cases h; exact .inl rfl
  | some n =>
    simp only [hf] at h
    have hn : n ∈ g.nodes := List.mem_of_find?_eq_some hf
    have hname : n.name = nm := by simpa using List.find?_some hf
    rcases hi : n.input with _ | ⟨r0, t⟩
    · rw [hi] at h; cases h
    · rcases t with _ | ⟨r1, t2⟩
      · rw [hi] at h; cases h; exact .inr ⟨n, hn, hname, r0, hi, rfl⟩
      · rw [hi] at h; cases h

theorem forwardByName_preserves {g g2 : Graph} {nm : String}
    (h : forwardByName g nm = .ok g2) :
    (gaEmptyInputs g → gaEmptyInputs g2) ∧ (gaAtMostOne g → gaAtMostOne g2) ∧
    (∀ x, x ≠ nm → hasName g x → hasName g2 x) ∧ (∀ x, noRefTo g x → noRefTo g2 x) := by
  rcases forwardByName_ok_cases h with rfl | ⟨n, hn, hname, r0, hi, rfl⟩
  · exact ⟨id, id, fun _ _ => id, fun _ => id⟩
  · refine ⟨?_, ?_, ?_, ?_⟩
    · intro he m hm hop
      obtain ⟨m0, hm0, rfl⟩ := List.mem_map.1 hm
      have hni : m0.input = [] := he m0 (List.mem_of_mem_filter hm0) hop
      simp [hni]
    · intro hc
      unfold gaAtMostOne at *
      rw [List.filter_map]
      have heq : List.filter ((fun nd => nd.op == "GridAnchor_TRT") ∘
            (fun m => { m with input := m.input.map (fun r => if refBase r == nm then r0 else r) }))
            (g.nodes.filter (fun m => m.name != nm))
          = List.filter (fun nd => nd.op == "GridAnchor_TRT")
            (g.nodes.filter (fun m => m.name != nm)) :=
        List.filter_congr (fun m _ => rfl)
      rw [heq, List.length_map]
      exact le_trans ((List.Sublist.filter _ (List.filter_sublist g.nodes)).length_le) hc
    · intro x hne hx
      obtain ⟨n1, hn1, hname1⟩ := hasName_exists hx
      refine List.mem_map.2 ⟨_, List.mem_map.2 ⟨n1, List.mem_filter.2 ⟨hn1, ?_⟩, rfl⟩, hname1⟩
      simp [hname1, hne]
    · intro x hx m hm r hr
      obtain ⟨m0, hm0, rfl⟩ := List.mem_map.1 hm
      have hm0g := List.mem_of_mem_filter hm0
      obtain ⟨r1, hr1, rfl⟩ := List.mem_map.1 hr
      cases hcond : (refBase r1 == nm)
      · rw [if_neg (by simp [hcond])]
        exact hx m0 hm0g r1 hr1
      · rw [if_pos (by simp_all)]
        exact hx n hn r0 (by simp [hi])

theorem forward_inputs_preserves {nms : List String} {g g2 : Graph}
    (h : forward_inputs g nms = .ok g2) :
    (gaEmptyInputs g → gaEmptyInputs g2) ∧ (gaAtMostOne g → gaAtMostOne g2) ∧
    (∀ x, (∀ nm ∈ nms, x ≠ nm) → hasName g x → hasName g2 x) ∧
    (∀ x, noRefTo g x → noRefTo g2 x) := by
  induction nms generalizing g with
  | nil =>
    simp only [forward_inputs, List.foldlM] at h
    cases h
    exact ⟨id, id, fun _ _ => id, fun _ => id⟩
  | cons nm t ih =>
    simp only [forward_inputs, List.foldlM] at h
    cases hstep : forwardByName g nm with
    | error e => rw [hstep] at h; cases h
    | ok g1 =>
      rw [hstep] at h
      have h' : forward_inputs g1 t = .ok g2 := h
      have hp1 := forwardByName_preserves hstep
      have hp2 := ih h'
      refine ⟨fun a => hp2.1 (hp1.1 a), fun a => hp2.2.1 (hp1.2.1 a), ?_, ?_⟩
      · intro x hnm hx
        exact hp2.2.2.1 x (fun y hy => hnm y (List.mem_cons_of_mem _ hy))
          (hp1.2.2.1 x (hnm nm (List.mem_cons_self _ _)) hx)
      · intro x hx
        exact hp2.2.2.2 x (hp1.2.2.2 x hx)

theorem forwardSqueeze_preserves {g g2 : Graph} (h : forwardSqueezePass g = .ok g2) :
    (gaEmptyInputs g → gaEmptyInputs g2) ∧ (gaAtMostOne g → gaAtMostOne g2) ∧
    (∀ x, x ≠ "Squeeze" → hasName g x → hasName g2 x) ∧
    (∀ x, noRefTo g x → noRefTo g2 x) := by
  unfold forwardSqueezePass at h
  cases ho : g.graph_outputs with
  | nil => rw [ho] at h; cases h
  | cons out0 rest =>
    rw [ho] at h
    have hp := forward_inputs_preserves h
    refine ⟨hp.1, hp.2.1, fun x hx => hp.2.2.1 x ?_, hp.2.2.2⟩
    intro nm hnm
    simp only [List.mem_map, List.mem_filter] at hnm
    obtain ⟨n, ⟨-, hcond⟩, rfl⟩ := hnm
    have hsq : n.name = "Squeeze" := by
      rw [Bool.and_eq_true] at hcond
      simpa using hcond.1
    rw [hsq]
    exact hx

/-! ### Preservation lemmas for node removal and the anchor repair -/

theorem removeNames_mem_eq {g : Graph} {nms : List String} {m : Node}
    (h : m ∈ (g.removeNames nms).nodes) :
    ∃ n ∈ g.nodes, ¬ nms.contains n.name = true ∧
      m = { n with input := n.input.filter (fun r => !(nms.contains (refBase r))) } := by
  simp only [Graph.removeNames, List.mem_map, List.mem_filter] at h
  obtain ⟨n, ⟨hn, hc⟩, rfl⟩ := h
  exact ⟨n, hn, by simpa using hc, rfl⟩

theorem removeNames_mem_of {g : Graph} {nms : List String} {n : Node}
    (hn : n ∈ g.nodes) (hname : n.name ∉ nms) (hinput : n.input = []) :
    n ∈ (g.removeNames nms).nodes := by
  simp only [Graph.removeNames, List.mem_map, List.mem_filter]
  refine ⟨n, ⟨hn, by simp [hname]⟩, ?_⟩
  cases n with
  | mk nm op inp attrs =>
    simp only at hinput
    subst hinput
    rfl

theorem removeNames_ga {g : Graph} {nms : List String} :
    (gaEmptyInputs g → gaEmptyInputs (g.removeNames nms)) ∧
    (gaAtMostOne g → gaAtMostOne (g.removeNames nms)) := by
  constructor
  · intro he m hm hop
    obtain ⟨n, hn, -, rfl⟩ := removeNames_mem_eq hm
    have hni : n.input = [] := he n hn hop
    simp [hni]
  · intro hc
    unfold gaAtMostOne at *
    unfold Graph.removeNames
    simp only
    rw [List.filter_map]
    have heq : List.filter ((fun nd => nd.op == "GridAnchor_TRT") ∘
          (fun n => { n with input := n.input.filter (fun r => !(nms.contains (refBase r))) }))
          (g.nodes.filter (fun n => !(nms.contains n.name)))
        = List.filter (fun nd => nd.op == "GridAnchor_TRT")
          (g.nodes.filter (fun n => !(nms.contains n.name))) :=
      List.filter_congr (fun m _ => rfl)
    rw [heq, List.length_map]
    exact le_trans ((List.Sublist.filter _ (List.filter_sublist g.nodes)).length_le) hc

theorem dropAnchors_preserves_ga {g g2 : Graph} (h : dropAnchorsPass g = .ok g2) :
    (gaEmptyInputs g → gaEmptyInputs g2) ∧ (gaAtMostOne g → gaAtMostOne g2) := by
  unfold dropAnchorsPass at h
  cases h
  split
  · exact removeNames_ga
  · exact ⟨id, id⟩

theorem dropAnchors_noName {g g2 : Graph} (h : dropAnchorsPass g = .ok g2)
    (h1 : hasName g "anchors") (h2 : noRefTo g "anchors") : noName g2 "anchors" := by
  unfold dropAnchorsPass at h
  cases h
  rw [if_pos (mem_outNames_of_inv h1 h2)]
  intro m hm heq
  have hno := removeNames_noName hm
  simp [heq] at hno

theorem ensure_noName {g g2 : Graph} {x : String} (h : ensureAnchorInputPass g = .ok g2)
    (hx : noName g x) (hne : x ≠ "AnchorInput") : noName g2 x := by
  unfold ensureAnchorInputPass at h
  cases hfind : find_nodes_by_op g "GridAnchor_TRT" with
  | nil => rw [hfind] at h; cases h
  | cons n rest =>
    simp only [hfind] at h
    split at h
    · cases h
      intro m hm heq
      unfold add_anchor_input at hm
      rcases updateFirst_mem hm with h1 | ⟨n1, hn1, rfl⟩
      · rcases List.mem_append.1 h1 with h2 | h2
        · exact hx m h2 heq
        · simp only [List.mem_singleton] at h2
          subst h2
          exact hne heq.symm
      · rcases List.mem_append.1 hn1 with h2 | h2
        · exact hx n1 h2 heq
        · simp only [List.mem_singleton] at h2
          subst h2
          exact hne heq.symm
    · cases h; exact hx

theorem validate_ok_noName {g g2 : Graph} {x : String} (h : validateOutputsPass g = .ok g2)
    (hx : noName g x) : noName g2 x := by
  unfold validateOutputsPass at h
  split at h
  · cases h; exact hx
  · split at h
    · cases h
      intro m hm heq
      obtain ⟨n, hn, -, rfl⟩ := removeNames_mem_eq hm
      exact hx n hn heq
    · cases h

theorem find?_eq_of_filter_cons {l : List Node} {p : Node → Bool} {n : Node} {rest : List Node}
    (h : l.filter p = n :: rest) : l.find? p = some n := by
  induction l with
  | nil => simp at h
  | cons m t ih =>
    rw [List.filter_cons] at h
    cases hp : p m
    · rw [hp] at h
      simp only [Bool.false_eq_true, if_false] at h
      rw [List.find?_cons, hp]
      exact ih h
    · rw [hp] at h
      simp only [if_true] at h
      cases h
      rw [List.find?_cons, hp]

theorem updateFirst_exists_of_find? {l : List Node} {p : Node → Bool} {f : Node → Node} {n : Node}
    (hf : l.find? p = some n) : f n ∈ updateFirst l p f := by
  induction l with
  | nil => cases hf
  | cons m t ih =>
    rw [List.find?_cons] at hf
    simp only [updateFirst]
    cases hp : p m
    · rw [hp] at hf
      simp only [Bool.false_eq_true, if_false] at hf ⊢
      exact List.mem_cons_of_mem _ (ih hf)
    · rw [hp] at hf
      simp only [if_true] at hf ⊢
      cases hf
      exact List.mem_cons_self _ _

theorem find?_append_some {l1 l2 : List Node} {p : Node → Bool} {n : Node}
    (h : l1.find? p = some n) : (l1 ++ l2).find? p = some n := by
  induction l1 with
  | nil => cases h
  | cons m t ih =>
    rw [List.find?_cons] at h
    rw [List.cons_append, List.find?_cons]
    cases hp : p m
    · rw [hp] at h
      simp only [Bool.false_eq_true, if_false] at h ⊢
      exact ih h
    · rw [hp] at h
      simpa using h

theorem updateFirst_anchor {l : List Node}
    (hc : (l.filter (fun n => n.op == "GridAnchor_TRT")).length ≤ 1)
    (he : ∀ n ∈ l, n.op = "GridAnchor_TRT" → n.input = []) :
    ∀ m ∈ updateFirst l (fun n => n.op == "GridAnchor_TRT")
        (fun n => { n with input := "AnchorInput" :: n.input }),
      m.op = "GridAnchor_TRT" → m.input = ["AnchorInput"] := by
  induction l with
  | nil => intro m hm; cases hm
  | cons n t ih =>
    intro m hm hop
    simp only [updateFirst] at hm
    by_cases hpn : (n.op == "GridAnchor_TRT") = true
    · rw [if_pos hpn] at hm
      rcases List.mem_cons.1 hm with rfl | hmt
      · have hni : n.input = [] := he n (List.mem_cons_self _ _) (by simpa using hpn)
        simp [hni]
      · exfalso
        rw [List.filter_cons, if_pos hpn] at hc
        have h0 : (t.filter (fun n => n.op == "GridAnchor_TRT")).length = 0 := by
          simpa using hc
        have hmf : m ∈ t.filter (fun n => n.op == "GridAnchor_TRT") :=
          List.mem_filter.2 ⟨hmt, by simp [hop]⟩
        rw [List.length_eq_zero.1 h0] at hmf
        cases hmf
    · rw [if_neg hpn] at hm
      rcases List.mem_cons.1 hm with rfl | hmt
      · exact absurd (by simp [hop]) hpn
      · rw [List.filter_cons, if_neg hpn] at hc
        exact ih hc (fun a ha => he a (List.mem_cons_of_mem _ ha)) m hmt hop

theorem ensure_repairs {g g2 : Graph} (h : ensureAnchorInputPass g = .ok g2)
    (he : gaEmptyInputs g) (hc : gaAtMostOne g) :
    anchorConst ∈ g2.nodes ∧
    (∃ m ∈ g2.nodes, m.op = "GridAnchor_TRT" ∧ m.input = ["AnchorInput"]) ∧
    (∀ m ∈ g2.nodes, m.op = "GridAnchor_TRT" → m.input = ["AnchorInput"]) := by
  unfold ensureAnchorInputPass at h
  cases hfind : find_nodes_by_op g "GridAnchor_TRT" with
  | nil => rw [hfind] at h; cases h
  | cons n rest =>
    simp only [hfind] at h
    have hnmem : n ∈ g.nodes ∧ (n.op == "GridAnchor_TRT") = true := by
      have hself : n ∈ find_nodes_by_op g "GridAnchor_TRT" := by
        rw [hfind]; exact List.mem_cons_self _ _
      exact List.mem_filter.1 hself
    have hop : n.op = "GridAnchor_TRT" := by simpa using hnmem.2
    have hni : n.input = [] := he n hnmem.1 hop
    rw [if_pos (by simp [hni])] at h
    cases h
    have hfq : g.nodes.find? (fun m => m.op == "GridAnchor_TRT") = some n :=
      find?_eq_of_filter_cons hfind
    have hfq2 : (g.nodes ++ [anchorConst]).find? (fun m => m.op == "GridAnchor_TRT") = some n :=
      find?_append_some hfq
    have hpa : (anchorConst.op == "GridAnchor_TRT") = false := by decide
    have hcapp : ((g.nodes ++ [anchorConst]).filter
        (fun m => m.op == "GridAnchor_TRT")).length ≤ 1 := by
      rw [List.filter_append]
      simpa [hpa] using hc
    have heapp : ∀ m ∈ g.nodes ++ [anchorConst], m.op = "GridAnchor_TRT" → m.input = [] := by
      intro m hm hmo
      rcases List.mem_append.1 hm with h1 | h1
      · exact he m h1 hmo
      · simp only [List.mem_singleton] at h1
        subst h1
        exact absurd hmo (by decide)
    refine ⟨?_, ?_, ?_⟩
    · exact updateFirst_mem_of_not (List.mem_append_right _ (List.mem_singleton.2 rfl)) hpa
    · refine ⟨_, updateFirst_exists_of_find? hfq2, hop, by simp [hni]⟩
    · exact updateFirst_anchor hcapp heapp

theorem validate_anchor_final {g g2 : Graph} (h : validateOutputsPass g = .ok g2)
    (ha : anchorConst ∈ g.nodes)
    (hex : ∃ m ∈ g.nodes, m.op = "GridAnchor_TRT" ∧ m.input = ["AnchorInput"])
    (hall : ∀ m ∈ g.nodes, m.op = "GridAnchor_TRT" → m.input = ["AnchorInput"]) :
    anchorConst ∈ g2.nodes ∧
    (∀ m ∈ g2.nodes, m.op = "GridAnchor_TRT" → m.input = ["AnchorInput"]) := by
  have hbase : refBase "AnchorInput" = "AnchorInput" := by decide
  have hcons : g.consumes "AnchorInput" = true := by
    obtain ⟨m, hm, -, hin⟩ := hex
    exact (consumes_eq_true_iff g _).2 ⟨m, hm, "AnchorInput", by simp [hin], hbase⟩
  have hnotout : "AnchorInput" ∉ outNames g := by
    intro hmem
    have hfalse := ((mem_outNames g _).1 hmem).2
    rw [hcons] at hfalse
    cases hfalse
  unfold validateOutputsPass at h
  split at h
  · cases h; exact ⟨ha, hall⟩
  · split at h
    · cases h
      have hcontains : (outNames g).contains "AnchorInput" = false := by
        cases hcb : (outNames g).contains "AnchorInput"
        · rfl
        · exact absurd (by simpa using hcb) hnotout
      constructor
      · exact removeNames_mem_of ha hnotout rfl
      · intro m hm hop
        obtain ⟨n, hn, -, rfl⟩ := removeNames_mem_eq hm
        have hni : n.input = ["AnchorInput"] := hall n hn hop
        simpa [hni, hbase] using hnotout
    · cases h

/-! ### Structural lemmas for the whole pipeline -/

theorem add_plugin_tail_run {t : Bool} {s : ModelSpec} {g gc gf : Graph}
    (h1 : runPasses (frontToCollapse t s) g = .ok gc)
    (h5 : add_plugin t s g = .ok gf) :
    runPasses tailAfterCollapse gc = .ok gf := by
  unfold add_plugin at h5
  rw [show passList t s = frontToCollapse t s ++ tailAfterCollapse from rfl,
    runPasses_append, h1] at h5
  exact h5

theorem add_plugin_validate_run {t : Bool} {s : ModelSpec} {g g1 : Graph}
    (h1 : runPasses (frontToValidate t s) g = .ok g1) :
    add_plugin t s g = validateOutputsPass g1 := by
  unfold add_plugin
  rw [passList_validate_split, runPasses_append, h1]
  show runPasses [(.validateOutputs, validateOutputsPass)] g1 = validateOutputsPass g1
  simp only [runPasses]
  cases hv : validateOutputsPass g1 <;> rfl

theorem add_plugin_ok_validate {t : Bool} {s : ModelSpec} {g gf : Graph}
    (h : add_plugin t s g = .ok gf) :
    ∃ g1, runPasses (frontToValidate t s) g = .ok g1 ∧ validateOutputsPass g1 = .ok gf := by
  unfold add_plugin at h
  rw [passList_validate_split, runPasses_append] at h
  cases hfront : runPasses (frontToValidate t s) g with
  | error e => rw [hfront] at h; cases h
  | ok g1 =>
    rw [hfront] at h
    obtain ⟨g2, hv, hnil⟩ := runPasses_cons_ok h
    simp only [runPasses] at hnil
    cases hnil
    exact ⟨g1, rfl, hv⟩

theorem opSwap_idem {t u : String} (h : (u == t) = false) (n : Node) :
    opSwap t u (opSwap t u n) = opSwap t u n := by
  unfold opSwap
  by_cases hop : (n.op == t) = true
  · rw [if_pos hop]
    simp only
    rw [if_neg (by simp_all)]
  · rw [if_neg hop, if_neg hop]

/-! ## Claim C1 -/

/-- C1, counterexample: in the pipeline's pass sequence, namespace
collapse comes strictly before both op-rewriting passes (source lines
241-243), refuting the claim that the op-rewriting passes complete
before namespace collapse begins. -/
theorem C1_counterexample :
    ((passList false spec_v1_coco).map Prod.fst).indexOf PassId.collapseNS <
      ((passList false spec_v1_coco).map Prod.fst).indexOf PassId.rwAddV2 ∧
    ((passList false spec_v1_coco).map Prod.fst).indexOf PassId.collapseNS <
      ((passList false spec_v1_coco).map Prod.fst).indexOf PassId.rwFusedBNV3 ∧
    ¬ ((passList false spec_v1_coco).map Prod.fst).indexOf PassId.rwAddV2 <
      ((passList false spec_v1_coco).map Prod.fst).indexOf PassId.collapseNS := by
  refine ⟨by decide, by decide, by decide⟩

/-- C1, amended: the Assert dead-code elimination and the Identity
elision complete before namespace collapse begins, the two op-rewriting
passes run immediately AFTER namespace collapse, and the validator runs
last; this holds for every compiler version and model spec. -/
theorem C1_pass_order (t : Bool) (s : ModelSpec) :
    (passList t s).map Prod.fst = addPluginPassOrder ∧
    addPluginPassOrder.indexOf PassId.removeAsserts <
      addPluginPassOrder.indexOf PassId.collapseNS ∧
    addPluginPassOrder.indexOf PassId.elideIdentities <
      addPluginPassOrder.indexOf PassId.collapseNS ∧
    addPluginPassOrder.indexOf PassId.collapseNS <
      addPluginPassOrder.indexOf PassId.rwAddV2 ∧
    addPluginPassOrder.indexOf PassId.collapseNS <
      addPluginPassOrder.indexOf PassId.rwFusedBNV3 ∧
    addPluginPassOrder.indexOf PassId.validateOutputs + 1 = addPluginPassOrder.length := by
  refine ⟨rfl, by decide, by decide, by decide, by decide, by decide⟩

/-! ## Claim C4 -/

/-- C4, counterexample: the aspect-ratio attribute of the PriorBox node
holds FIVE values, not six as the claim states. -/
theorem C4_counterexample :
    getAttr (PriorBoxNode spec_v1_coco) "aspectRatios" = some (.dl aspectRatiosList) ∧
    aspectRatiosList.length = 5 ∧ ¬ aspectRatiosList.length = 6 := by
  refine ⟨rfl, rfl, by decide⟩

/-- C4, amended: for every model spec, the PriorBox node carries the
spec's min and max scale, the fixed FIVE aspect ratios
`[1.0, 2.0, 0.5, 3.0, 0.33]`, the fixed variance 4-tuple
`[0.1, 0.1, 0.2, 0.2]`, the fixed six-level feature-map-size list
`[19, 10, 5, 3, 2, 1]`, and a layer count of 6. -/
theorem C4_priorbox_attrs (s : ModelSpec) :
    getAttr (PriorBoxNode s) "minSize" = some (.d s.min_size) ∧
    getAttr (PriorBoxNode s) "maxSize" = some (.d s.max_size) ∧
    getAttr (PriorBoxNode s) "aspectRatios" = some (.dl aspectRatiosList) ∧
    aspectRatiosList = [⟨1, 0⟩, ⟨2, 0⟩, ⟨5, 1⟩, ⟨3, 0⟩, ⟨33, 2⟩] ∧
    aspectRatiosList.length = 5 ∧
    getAttr (PriorBoxNode s) "variance" = some (.dl [⟨1, 1⟩, ⟨1, 1⟩, ⟨2, 1⟩, ⟨2, 1⟩]) ∧
    getAttr (PriorBoxNode s) "featureMapShapes" = some (.il [19, 10, 5, 3, 2, 1]) ∧
    getAttr (PriorBoxNode s) "numLayers" = some (.i 6) ∧
    (PriorBoxNode s).op = "GridAnchor_TRT" := by
  exact ⟨rfl, rfl, rfl, rfl, rfl, rfl, rfl, rfl, rfl⟩

/-! ## Claim C5 -/

/-- C5: for the `ssd_mobilenet_v1_coco` spec (class count 91, min/max
scale 0.2/0.95, input order `[0,2,1]`), the NMS node carries class-count
attribute 91, confidence threshold 0.3, and input order `[0,2,1]`. -/
theorem C5_nms_attrs :
    MODEL_SPECS.lookup "ssd_mobilenet_v1_coco" = some spec_v1_coco ∧
    spec_v1_coco.num_classes = 91 ∧
    spec_v1_coco.min_size = ⟨2, 1⟩ ∧
    spec_v1_coco.max_size = ⟨95, 2⟩ ∧
    spec_v1_coco.input_order = [0, 2, 1] ∧
    getAttr (NMSNode spec_v1_coco) "numClasses" = some (.i 91) ∧
    getAttr (NMSNode spec_v1_coco) "confidenceThreshold" = some (.d ⟨3, 1⟩) ∧
    getAttr (NMSNode spec_v1_coco) "inputOrder" = some (.il [0, 2, 1]) := by
  exact ⟨rfl, rfl, rfl, rfl, rfl, rfl, rfl, rfl⟩

/-! ## Claim C8 -/

/-- C8: the `replace_addv2` op-rewriting pass is idempotent, a no-op when
no `AddV2` node exists, leaves no `AddV2` node behind, and touches
neither names, inputs nor attributes. -/
theorem C8_replace_addv2_idem (g : Graph) :
    replace_addv2 (replace_addv2 g) = replace_addv2 g ∧
    ((∀ n ∈ g.nodes, n.op ≠ "AddV2") → replace_addv2 g = g) ∧
    (∀ n ∈ (replace_addv2 g).nodes, n.op ≠ "AddV2") ∧
    (replace_addv2 g).nodes.map Node.name = g.nodes.map Node.name ∧
    (replace_addv2 g).nodes.map Node.input = g.nodes.map Node.input ∧
    (replace_addv2 g).nodes.map Node.attrs = g.nodes.map Node.attrs := by
  simp only [replace_addv2]
  refine ⟨?_, ?_, ?_, ?_, ?_, ?_⟩
  · congr 1
    rw [List.map_map]
    exact List.map_congr_left (fun n _ => opSwap_idem (by decide) n)
  · intro hno
    show Graph.mk _ = _
    conv_rhs => rw [show g = Graph.mk g.nodes from rfl]
    congr 1
    refine (List.map_congr_left ?_).trans (List.map_id g.nodes)
    intro n hn
    unfold opSwap
    rw [if_neg (by simpa using hno n hn)]
    rfl
  · intro n hn
    obtain ⟨m, hm, rfl⟩ := List.mem_map.1 hn
    unfold opSwap
    by_cases hop : (m.op == "AddV2") = true
    · rw [if_pos hop]
      show "Add" ≠ "AddV2"
      decide
    · rw [if_neg hop]
      simpa using hop
  · rw [List.map_map]
    exact List.map_congr_left (fun n _ => opSwap_name _ _ n)
  · rw [List.map_map]
    exact List.map_congr_left (fun n _ => opSwap_input _ _ n)
  · rw [List.map_map]
    exact List.map_congr_left (fun n _ => opSwap_attrs _ _ n)

/-- C8 witness: idempotence and the no-op case at a concrete graph. -/
theorem C8_witness :
    replace_addv2 (replace_addv2 gW8) = replace_addv2 gW8 ∧ replace_addv2 gW8 = gW8 :=
  ⟨(C8_replace_addv2_idem gW8).1, (C8_replace_addv2_idem gW8).2.1 (by decide)⟩

/-! ## Claim C10 -/

/-- C10: on a graph where no `Input` node exists after collapse (here the
empty graph) the pipeline dies at `find_nodes_by_name('Input')[0]` with
an unguarded IndexError, and on a graph with no `GridAnchor_TRT` node it
dies at `find_nodes_by_op('GridAnchor_TRT')[0]` likewise — not with the
descriptive `RuntimeError('bad graph_outputs')` of the validator. -/
theorem C10_unguarded_index :
    add_plugin false spec_v1_coco (Graph.mk []) = .error .indexError ∧
    add_plugin false spec_v1_coco gNoGA = .error .indexError ∧
    PErr.indexError ≠ PErr.runtime "bad graph_outputs" := by
  refine ⟨rfl, rfl, by decide⟩

/-! ## Claim C2 -/

/-- C2, counterexample: the pipeline returns successfully on `gC2` with
TWO nodes in the output set (`S` and `NMS`), refuting "the graph's output
set contains exactly one node".  The validator only checks that `NMS` is
AMONG the outputs. -/
theorem C2_counterexample :
    add_plugin false spec_v1_coco gC2 = .ok c2res ∧
    outNames c2res = ["S", "NMS"] ∧
    outNames c2res ≠ ["NMS"] := by
  refine ⟨rfl, by decide, by decide⟩

/-- C2, amended: whenever `add_plugin` returns successfully, the `NMS`
node is among the graph's outputs (so the output set is never empty); it
need not be the only output. -/
theorem C2_nms_among_outputs (t : Bool) (s : ModelSpec) (g gf : Graph)
    (h : add_plugin t s g = .ok gf) : "NMS" ∈ outNames gf := by
  obtain ⟨g1, -, hv⟩ := add_plugin_ok_validate h
  exact validate_ok_mem hv

/-- C2 witness: the amended theorem applied to the concrete graph
`gGood`, on which the pipeline succeeds. -/
theorem C2_witness : "NMS" ∈ outNames goodRes :=
  C2_nms_among_outputs false spec_v1_coco gGood goodRes rfl

/-! ## Claim C6 -/

/-- C6: for every graph that reaches the final validation with `NMS`
absent from the output set, and still absent after dropping the current
outputs (the one corrective retry), the pipeline raises the fatal
`RuntimeError('bad graph_outputs')`, and `main` writes neither the
interchange file nor the engine file. -/
theorem C6_fatal_no_outputs (t : Bool) (s : ModelSpec) (g g1 : Graph)
    (h1 : runPasses (frontToValidate t s) g = .ok g1)
    (h2 : "NMS" ∉ outNames g1)
    (h3 : "NMS" ∉ outNames (g1.removeNames (outNames g1))) :
    add_plugin t s g = .error (.runtime "bad graph_outputs") ∧
    main_files t s g = .error (.runtime "bad graph_outputs") := by
  have hv : add_plugin t s g = validateOutputsPass g1 := add_plugin_validate_run h1
  have hval : validateOutputsPass g1 = .error (.runtime "bad graph_outputs") := by
    unfold validateOutputsPass
    rw [if_neg h2, if_neg h3]
  refine ⟨hv.trans hval, ?_⟩
  unfold main_files
  rw [hv.trans hval]

/-- C6 witness: the fatal-error theorem applied to the concrete graph
`gC6`. -/
theorem C6_witness :
    add_plugin false spec_v1_coco gC6 = .error (.runtime "bad graph_outputs") ∧
    main_files false spec_v1_coco gC6 = .error (.runtime "bad graph_outputs") :=
  C6_fatal_no_outputs false spec_v1_coco gC6 c6mid rfl (by decide) (by decide)

/-! ## Claim C9 -/

theorem stripRef_first {g g1 : Graph} {nm ref : String} {n : Node}
    (h : stripRef g nm ref = .ok g1)
    (hf : g.nodes.find? (fun m => m.name == nm) = some n)
    (hc : n.input.count ref ≤ 1) :
    ∀ m, g1.nodes.find? (fun m2 => m2.name == nm) = some m → ref ∉ m.input := by
  unfold stripRef at h
  simp only [hf] at h
  by_cases hmem : ref ∈ n.input
  · rw [if_pos hmem] at h
    cases h
    intro m hm
    rw [@updateFirst_find?_self g.nodes (fun m2 => m2.name == nm)
      (fun m2 => { m2 with input := m2.input.erase ref }) (fun _ => rfl), hf] at hm
    cases hm
    have hcount : (n.input.erase ref).count ref = 0 := by
      rw [List.count_erase_self]
      have h1 : 1 ≤ n.input.count ref := List.one_le_count_iff.2 hmem
      omega
    exact List.count_eq_zero.1 hcount
  · rw [if_neg hmem] at h
    cases h
    intro m hm
    rw [hf] at hm
    cases hm
    exact hmem

theorem stripRef_find?_other {g g1 : Graph} {nm ref qnm : String}
    (h : stripRef g nm ref = .ok g1) (hne : nm ≠ qnm) :
    g1.nodes.find? (fun m => m.name == qnm) = g.nodes.find? (fun m => m.name == qnm) := by
  rcases stripRef_ok_cases h with rfl | rfl
  · rfl
  · refine @updateFirst_find?_ne g.nodes (fun m => m.name == nm) (fun m => m.name == qnm)
      (fun m => { m with input := m.input.erase ref }) ?_ (fun _ => rfl)
    intro m hb
    have hmn : m.name = nm := by simpa using hb
    simp [hmn]
    exact hne

/-- C9, amended: after the residual-edge cleanup of lines 245-248, the
first node named `Input` no longer lists `image_tensor:0` and the first
node named `NMS` no longer lists `Input` — PROVIDED each listed the
reference at most once: Python `list.remove` deletes only the first
occurrence. -/
theorem C9_residual_edges_stripped (g g1 g2 : Graph) (nIn nNMS : Node)
    (h1 : stripInputEdgePass g = .ok g1)
    (h2 : stripNMSEdgePass g1 = .ok g2)
    (hIn : g.nodes.find? (fun m => m.name == "Input") = some nIn)
    (hcIn : nIn.input.count "image_tensor:0" ≤ 1)
    (hNMS : g1.nodes.find? (fun m => m.name == "NMS") = some nNMS)
    (hcNMS : nNMS.input.count "Input" ≤ 1) :
    (∀ m, g2.nodes.find? (fun m2 => m2.name == "Input") = some m →
      "image_tensor:0" ∉ m.input) ∧
    (∀ m, g2.nodes.find? (fun m2 => m2.name == "NMS") = some m → "Input" ∉ m.input) := by
  constructor
  · intro m hm
    rw [stripRef_find?_other h2 (by decide)] at hm
    exact stripRef_first h1 hIn hcIn m hm
  · exact stripRef_first h2 hNMS hcNMS

/-- C9, counterexample: when a reference occurs twice, the cleanup
removes only the first occurrence, so the node still lists it — refuting
the unconditional claim. -/
theorem C9_counterexample :
    stripInputEdgePass gDup = .ok dup1 ∧
    stripNMSEdgePass dup1 = .ok dup2 ∧
    (∃ m ∈ dup2.nodes, m.name = "Input" ∧ "image_tensor:0" ∈ m.input) ∧
    (∃ m ∈ dup2.nodes, m.name = "NMS" ∧ "Input" ∈ m.input) := by
  refine ⟨rfl, rfl, by decide, by decide⟩

/-- C9 witness: the amended theorem applied to the concrete graph `gW9`. -/
theorem C9_witness :
    (∀ m, w9b.nodes.find? (fun m2 => m2.name == "Input") = some m →
      "image_tensor:0" ∉ m.input) ∧
    (∀ m, w9b.nodes.find? (fun m2 => m2.name == "NMS") = some m → "Input" ∉ m.input) :=
  C9_residual_edges_stripped gW9 w9a w9b ⟨"Input", "Placeholder", ["image_tensor:0"], []⟩
    ⟨"NMS", "NMS_TRT", ["Input", "w"], []⟩ rfl rfl rfl (by decide) rfl (by decide)

/-! ## Claim C3 -/

/-- C3, amended: for every graph whose (unique) prior-box generator has
zero inputs after namespace collapse, a successful pipeline run performs
the silent repair: the final graph contains the `AnchorInput` constant
node with value `[1.0, 1.0]`, and any generator node remaining in the
final graph has exactly the one input `AnchorInput`, wired first.  (The
final output correction may remove the generator node itself — see the
counterexample — which is the only amendment to the claim.) -/
theorem C3_anchor_repair (t : Bool) (s : ModelSpec) (g gc gf : Graph)
    (h1 : runPasses (frontToCollapse t s) g = .ok gc)
    (h2 : gaEmptyInputs gc)
    (h3 : gaAtMostOne gc)
    (h4 : add_plugin t s g = .ok gf) :
    anchorConst ∈ gf.nodes ∧
    getAttr anchorConst "value" = some (.dl [⟨1, 0⟩, ⟨1, 0⟩]) ∧
    anchorConst.op = "Const" ∧
    (∀ m ∈ gf.nodes, m.op = "GridAnchor_TRT" → m.input = ["AnchorInput"]) := by
  have htail : runPasses tailAfterCollapse gc = .ok gf := add_plugin_tail_run h1 h4
  rw [show tailAfterCollapse =
    (PassId.rwAddV2, fun g => Except.ok (replace_addv2 g)) ::
    (PassId.rwFusedBNV3, fun g => Except.ok (replace_fusedbnv3 g)) ::
    (PassId.stripInputEdge, stripInputEdgePass) ::
    (PassId.stripNMSEdge, stripNMSEdgePass) ::
    (PassId.forwardSqueeze, forwardSqueezePass) ::
    (PassId.dropAnchors, dropAnchorsPass) ::
    (PassId.ensureAnchorInput, ensureAnchorInputPass) ::
    [(PassId.validateOutputs, validateOutputsPass)] from rfl] at htail
  obtain ⟨g1, hs1, htail⟩ := runPasses_cons_ok htail
  obtain ⟨g2, hs2, htail⟩ := runPasses_cons_ok htail
  obtain ⟨g3, hs3, htail⟩ := runPasses_cons_ok htail
  obtain ⟨g4, hs4, htail⟩ := runPasses_cons_ok htail
  obtain ⟨g5, hs5, htail⟩ := runPasses_cons_ok htail
  obtain ⟨g6, hs6, htail⟩ := runPasses_cons_ok htail
  obtain ⟨g7, hs7, htail⟩ := runPasses_cons_ok htail
  obtain ⟨g8, hs8, htail⟩ := runPasses_cons_ok htail
  simp only [runPasses] at htail
  cases htail
  cases hs1
  cases hs2
  have e1 : gaEmptyInputs (replace_addv2 gc) :=
    gaEmpty_map_opSwap (by decide) (by decide) h2
  have c1 : gaAtMostOne (replace_addv2 gc) :=
    gaCount_map_opSwap (by decide) (by decide) h3
  have e2 : gaEmptyInputs (replace_fusedbnv3 (replace_addv2 gc)) :=
    gaEmpty_map_opSwap (by decide) (by decide) e1
  have c2 : gaAtMostOne (replace_fusedbnv3 (replace_addv2 gc)) :=
    gaCount_map_opSwap (by decide) (by decide) c1
  have p3 := stripRef_preserves hs3
  have p4 := stripRef_preserves hs4
  have p5 := forwardSqueeze_preserves hs5
  have p6 := dropAnchors_preserves_ga hs6
  have e6 : gaEmptyInputs g6 := p6.1 (p5.1 (p4.1 (p3.1 e2)))
  have c6 : gaAtMostOne g6 := p6.2 (p5.2.1 (p4.2.1 (p3.2.1 c2)))
  obtain ⟨ha, hexx, hall⟩ := ensure_repairs hs7 e6 c6
  have hfin := validate_anchor_final hs8 ha hexx hall
  exact ⟨hfin.1, rfl, rfl, hfin.2⟩

/-- C3, counterexample: on `gC3cex` the generator has zero inputs after
collapse, the pipeline succeeds, yet the final graph contains NO
generator node at all (the corrective output retry removed it), so "the
pipeline leaves the generator with exactly one input" fails as stated. -/
theorem C3_counterexample :
    runPasses (frontToCollapse false spec_v1_coco) gC3cex = .ok c3cexMid ∧
    (∀ n ∈ c3cexMid.nodes, n.op = "GridAnchor_TRT" → n.input = []) ∧
    (∃ n ∈ c3cexMid.nodes, n.op = "GridAnchor_TRT") ∧
    add_plugin false spec_v1_coco gC3cex = .ok c3cexRes ∧
    find_nodes_by_op c3cexRes "GridAnchor_TRT" = [] := by
  refine ⟨rfl, by decide, by decide, rfl, by decide⟩

/-- C3 witness: the amended theorem applied to the concrete graph `gW3`. -/
theorem C3_witness :
    anchorConst ∈ w3res.nodes ∧
    getAttr anchorConst "value" = some (.dl [⟨1, 0⟩, ⟨1, 0⟩]) ∧
    anchorConst.op = "Const" ∧
    (∀ m ∈ w3res.nodes, m.op = "GridAnchor_TRT" → m.input = ["AnchorInput"]) :=
  C3_anchor_repair false spec_v1_coco gW3 w3mid w3res rfl
    (by unfold gaEmptyInputs; decide) (by unfold gaAtMostOne; decide) rfl

/-! ## Claim C7 -/

/-- C7, amended: for every graph whose output set after namespace
collapse is `{NMS, anchors}`, a successful pipeline run drops the
`anchors` node, so the final output set contains `NMS` and does not
contain `anchors`; it may contain further nodes newly orphaned by the
residual-edge cleanup (see the counterexample), which is the only
amendment to the claim. -/
theorem C7_stray_anchors_dropped (t : Bool) (s : ModelSpec) (g gc gf : Graph)
    (h1 : runPasses (frontToCollapse t s) g = .ok gc)
    (_h2 : "NMS" ∈ outNames gc)
    (h3 : "anchors" ∈ outNames gc)
    (_h4 : ∀ x ∈ outNames gc, x = "NMS" ∨ x = "anchors")
    (h5 : add_plugin t s g = .ok gf) :
    "NMS" ∈ outNames gf ∧ "anchors" ∉ outNames gf := by
  have htail : runPasses tailAfterCollapse gc = .ok gf := add_plugin_tail_run h1 h5
  rw [show tailAfterCollapse =
    (PassId.rwAddV2, fun g => Except.ok (replace_addv2 g)) ::
    (PassId.rwFusedBNV3, fun g => Except.ok (replace_fusedbnv3 g)) ::
    (PassId.stripInputEdge, stripInputEdgePass) ::
    (PassId.stripNMSEdge, stripNMSEdgePass) ::
    (PassId.forwardSqueeze, forwardSqueezePass) ::
    (PassId.dropAnchors, dropAnchorsPass) ::
    (PassId.ensureAnchorInput, ensureAnchorInputPass) ::
    [(PassId.validateOutputs, validateOutputsPass)] from rfl] at htail
  obtain ⟨g1, hs1, htail⟩ := runPasses_cons_ok htail
  obtain ⟨g2, hs2, htail⟩ := runPasses_cons_ok htail
  obtain ⟨g3, hs3, htail⟩ := runPasses_cons_ok htail
  obtain ⟨g4, hs4, htail⟩ := runPasses_cons_ok htail
  obtain ⟨g5, hs5, htail⟩ := runPasses_cons_ok htail
  obtain ⟨g6, hs6, htail⟩ := runPasses_cons_ok htail
  obtain ⟨g7, hs7, htail⟩ := runPasses_cons_ok htail
  obtain ⟨g8, hs8, htail⟩ := runPasses_cons_ok htail
  simp only [runPasses] at htail
  cases htail
  cases hs1
  cases hs2
  obtain ⟨⟨n0, hn0, hname0⟩, hcons0⟩ := (mem_outNames gc _).1 h3
  have hHas0 : hasName gc "anchors" := List.mem_map.2 ⟨n0, hn0, hname0⟩
  have hNoRef0 : noRefTo gc "anchors" := (consumes_eq_false_iff gc _).1 hcons0
  have hHas1 : hasName (replace_addv2 gc) "anchors" :=
    hasName_map (fun n => opSwap_name _ _ n) hHas0
  have hNoRef1 : noRefTo (replace_addv2 gc) "anchors" :=
    noRefTo_map (fun n => opSwap_input _ _ n) hNoRef0
  have hHas2 : hasName (replace_fusedbnv3 (replace_addv2 gc)) "anchors" :=
    hasName_map (fun n => opSwap_name _ _ n) hHas1
  have hNoRef2 : noRefTo (replace_fusedbnv3 (replace_addv2 gc)) "anchors" :=
    noRefTo_map (fun n => opSwap_input _ _ n) hNoRef1
  have p3 := stripRef_preserves hs3
  have p4 := stripRef_preserves hs4
  have p5 := forwardSqueeze_preserves hs5
  have hHas5 : hasName g5 "anchors" :=
    p5.2.2.1 "anchors" (by decide) (p4.2.2.1 "anchors" (p3.2.2.1 "anchors" hHas2))
  have hNoRef5 : noRefTo g5 "anchors" :=
    p5.2.2.2 "anchors" (p4.2.2.2 "anchors" (p3.2.2.2 "anchors" hNoRef2))
  have hNo6 : noName g6 "anchors" := dropAnchors_noName hs6 hHas5 hNoRef5
  have hNo7 : noName g7 "anchors" := ensure_noName hs7 hNo6 (by decide)
  exact ⟨validate_ok_mem hs8, noName_not_mem_outNames (validate_ok_noName hs8 hNo7)⟩

/-- C7, counterexample: on `gC7` the post-collapse output set is exactly
`{anchors, NMS}`, the pipeline succeeds, and the final output set is
`{Input, NMS}`, not `{NMS}`: stripping the residual `NMS → Input` edge
orphaned the `Input` placeholder. -/
theorem C7_counterexample :
    runPasses (frontToCollapse false spec_v1_coco) gC7 = .ok c7mid ∧
    outNames c7mid = ["anchors", "NMS"] ∧
    add_plugin false spec_v1_coco gC7 = .ok c7res ∧
    outNames c7res = ["Input", "NMS"] ∧
    outNames c7res ≠ ["NMS"] := by
  refine ⟨rfl, by decide, rfl, by decide, by decide⟩

/-- C7 witness: the amended theorem applied to the concrete graph `gC7`. -/
theorem C7_witness : "NMS" ∈ outNames c7res ∧ "anchors" ∉ outNames c7res :=
  C7_stray_anchors_dropped false spec_v1_coco gC7 c7mid c7res rfl
    (by decide) (by decide) (by decide) rfl
